import Mathlib

/-!
Shallow embedding of the rhone_chat streaming run coordinator and the
store, history and configuration code it depends on, together with
theorems checking the frozen claims C1..C10 against the source.

Modelling conventions:
* Go strings are byte slices.  Where byte-level behaviour matters
  (`truncateText`, the persisted tool-call payloads) strings are modelled
  as `List UInt8`; `len(s)` is `List.length` and slicing is `List.take`.
* Where only character content matters, strings are Lean `String`s and
  Go's `strings.TrimSpace` is modelled by `trimSpace` (ASCII whitespace).
* Wall-clock times are opaque `Int` values; time-threshold flush decisions
  depend on the clock, so they enter the model as boolean oracles.
* Fallible operations return the new state paired with an optional error,
  or an `Except`.
-/

namespace RhoneChat

/-- Whitespace test matching Go `unicode.IsSpace` on ASCII input: space,
tab, newline, carriage return, vertical tab and form feed. -/
def isSpaceChar (c : Char) : Bool :=
  c == ' ' || c == '\t' || c == '\n' || c == '\r' || c == '\x0b' || c == '\x0c'

/-- Model of Go `strings.TrimSpace`: drop leading and trailing whitespace. -/
def trimSpace (s : String) : String :=
  String.mk (((s.data.dropWhile isSpaceChar).reverse.dropWhile isSpaceChar).reverse)

/-- Byte content of the `"..."` marker appended by `truncateText`. -/
def ellipsisBytes : List UInt8 := [46, 46, 46]

/-- Model of `truncateText(value string, maxBytes int)` from
`internal/services/chat/service.go` (an identical copy lives in
`app/routes/index.go`).  Go `len` and slicing act on bytes, hence the
`List UInt8` representation. -/
def truncateText (value : List UInt8) (maxBytes : Int) : List UInt8 :=
  if maxBytes ≤ 0 then []
  else if (value.length : Int) ≤ maxBytes then value
  else if maxBytes ≤ 3 then value.take maxBytes.toNat
  else value.take (maxBytes - 3).toNat ++ ellipsisBytes

/-- UTF-8 continuation byte test (0x80..0xBF). -/
def isCont (b : UInt8) : Bool := decide (0x80 ≤ b ∧ b ≤ 0xBF)

/-- UTF-8 validity of a byte list (standard table, rejecting overlong forms
and surrogates).  Used to state that byte-budget truncation can cut a
multi-byte character in half. -/
def validUtf8 : List UInt8 → Bool
  | [] => true
  | b0 :: r0 =>
    if b0 ≤ 0x7F then validUtf8 r0
    else
      match r0 with
      | [] => false
      | b1 :: r1 =>
        if 0xC2 ≤ b0 ∧ b0 ≤ 0xDF then isCont b1 && validUtf8 r1
        else
          match r1 with
          | [] => false
          | b2 :: r2 =>
            if b0 = 0xE0 then decide (0xA0 ≤ b1 ∧ b1 ≤ 0xBF) && isCont b2 && validUtf8 r2
            else if 0xE1 ≤ b0 ∧ b0 ≤ 0xEC then isCont b1 && isCont b2 && validUtf8 r2
            else if b0 = 0xED then decide (0x80 ≤ b1 ∧ b1 ≤ 0x9F) && isCont b2 && validUtf8 r2
            else if 0xEE ≤ b0 ∧ b0 ≤ 0xEF then isCont b1 && isCont b2 && validUtf8 r2
            else
              match r2 with
              | [] => false
              | b3 :: r3 =>
                if b0 = 0xF0 then
                  decide (0x90 ≤ b1 ∧ b1 ≤ 0xBF) && isCont b2 && isCont b3 && validUtf8 r3
                else if 0xF1 ≤ b0 ∧ b0 ≤ 0xF3 then
                  isCont b1 && isCont b2 && isCont b3 && validUtf8 r3
                else if b0 = 0xF4 then
                  decide (0x80 ≤ b1 ∧ b1 ≤ 0x8F) && isCont b2 && isCont b3 && validUtf8 r3
                else false

theorem truncateText_length_le (v : List UInt8) (n : Int) :
    ((truncateText v n).length : Int) ≤ max n 0 := by
  unfold truncateText
  split
  · simp only [List.length_nil, Int.natCast_zero]
    exact le_max_right n 0
  · split
    · exact le_trans (by assumption) (le_max_left n 0)
    · split
      · rename_i h0 _ _
        have hn : (0 : Int) ≤ n := le_of_not_le h0
        have ht : (n.toNat : Int) = n := Int.toNat_of_nonneg hn
        have := List.length_take n.toNat v
        refine le_trans ?_ (le_max_left n 0)
        rw [this]
        omega
      · rename_i h0 hlen h3
        have hn : (3 : Int) < n := lt_of_not_le h3
        have ht : ((n - 3).toNat : Int) = n - 3 := Int.toNat_of_nonneg (by omega)
        refine le_trans ?_ (le_max_left n 0)
        have h1 := List.length_take (n - 3).toNat v
        simp only [List.length_append, h1, ellipsisBytes, List.length_cons, List.length_nil]
        omega

theorem truncateText_of_fits (v : List UInt8) (n : Int) (h : (v.length : Int) ≤ n) :
    truncateText v n = v := by
  unfold truncateText
  split_ifs with h0
  · have : v.length = 0 := by omega
    simp [List.length_eq_zero.mp this]
  · rfl

theorem truncateText_of_small (v : List UInt8) (n : Int)
    (hlen : n < (v.length : Int)) (h3 : n ≤ 3) :
    truncateText v n = v.take n.toNat := by
  unfold truncateText
  split_ifs with h0 h1
  · have : n.toNat = 0 := by omega
    simp [this]
  · omega
  · rfl

theorem truncateText_of_over (v : List UInt8) (n : Int)
    (hlen : n < (v.length : Int)) (h3 : 3 < n) :
    truncateText v n = v.take (n - 3).toNat ++ ellipsisBytes := by
  unfold truncateText
  split_ifs with h0 h1 h2
  · omega
  · omega
  · omega
  · rfl

/-- Claim C10: `truncateText(v, n)` yields at most `max n 0` bytes; it is
the identity when `len v ≤ n`; on truncation it is the raw byte prefix
`take n` with no marker for budgets `n ≤ 3`, and the byte prefix
`take (n-3)` with the `"..."` marker appended for budgets `n > 3`; and the
byte cut can split a multi-byte UTF-8 character (here the two-byte
character with bytes 0xC3 0xA9). -/
theorem truncateText_spec (v : List UInt8) (n : Int) :
    ((truncateText v n).length : Int) ≤ max n 0
    ∧ ((v.length : Int) ≤ n → truncateText v n = v)
    ∧ (n < (v.length : Int) → n ≤ 3 → truncateText v n = v.take n.toNat)
    ∧ (n < (v.length : Int) → 3 < n →
        truncateText v n = v.take (n - 3).toNat ++ ellipsisBytes)
    ∧ validUtf8 [0xC3, 0xA9] = true
    ∧ validUtf8 (truncateText [0xC3, 0xA9] 1) = false :=
  ⟨truncateText_length_le v n, truncateText_of_fits v n,
    truncateText_of_small v n, truncateText_of_over v n,
    by decide, by decide⟩

/-- Witness for `truncateText_spec` at a concrete input: a five-byte value
with budget 4 keeps one raw byte and appends the marker. -/
theorem truncateText_spec_witness :
    truncateText [1, 2, 3, 4, 5] 4 =
      List.take ((4 : Int) - 3).toNat [1, 2, 3, 4, 5] ++ ellipsisBytes :=
  (truncateText_spec [1, 2, 3, 4, 5] 4).2.2.2.1 (by decide) (by decide)

/-- The `ai.ToolCallUpdate` record delivered by the provider transport
(`internal/ai`, part_003).  Payload fields are byte lists because the
service truncates them at byte budgets. -/
structure ToolCallUpdate where
  id : String
  name : String
  status : String
  input : List UInt8
  output : List UInt8
  errText : List UInt8
deriving DecidableEq, Repr

/-- A row of the `tool_calls` table (`db.ToolCall`). -/
structure ToolCall where
  id : String
  runId : String
  toolCallId : String
  name : String
  status : String
  inputJson : List UInt8
  outputJson : List UInt8
  errorText : List UInt8
  startedAt : Int
  finishedAt : Option Int
deriving DecidableEq, Repr

/-- Row written by `Service.UpsertToolStart`: status `running`, input
truncated to 4000 bytes, empty output and error, no finish time. -/
def upsertToolStartRow (callId runId : String) (u : ToolCallUpdate) (now : Int) : ToolCall :=
  { id := callId, runId := runId, toolCallId := u.id, name := u.name,
    status := "running", inputJson := truncateText u.input 4000,
    outputJson := [], errorText := [], startedAt := now, finishedAt := none }

/-- Effect of `Service.CompleteTool` (via `Store.CompleteToolCall`) on a
tool-call row: status defaulting to `completed`, output truncated to 4000
bytes, error text truncated to 2000 bytes, finish time set. -/
def completeToolRow (row : ToolCall) (u : ToolCallUpdate) (now : Int) : ToolCall :=
  { row with
    status := if u.status = "" then "completed" else u.status,
    outputJson := truncateText u.output 4000,
    errorText := truncateText u.errText 2000,
    finishedAt := some now }

/-- Claim C4: every tool-call row persisted by the coordinator stores an
input and output of byte length at most 4096 (the code truncates them at
4000 bytes) and an error text of byte length at most 2048 (truncated at
2000 bytes), and the `"..."` marker is appended exactly when truncation
occurred. -/
theorem toolCall_field_caps (callId runId : String) (u : ToolCallUpdate)
    (now : Int) (row : ToolCall) :
    (upsertToolStartRow callId runId u now).inputJson.length ≤ 4096
    ∧ (completeToolRow row u now).outputJson.length ≤ 4096
    ∧ (completeToolRow row u now).errorText.length ≤ 2048
    ∧ (u.input.length ≤ 4000 → (upsertToolStartRow callId runId u now).inputJson = u.input)
    ∧ (4000 < u.input.length →
        ∃ p, (upsertToolStartRow callId runId u now).inputJson = p ++ ellipsisBytes)
    ∧ (u.output.length ≤ 4000 → (completeToolRow row u now).outputJson = u.output)
    ∧ (4000 < u.output.length →
        ∃ p, (completeToolRow row u now).outputJson = p ++ ellipsisBytes)
    ∧ (u.errText.length ≤ 2000 → (completeToolRow row u now).errorText = u.errText)
    ∧ (2000 < u.errText.length →
        ∃ p, (completeToolRow row u now).errorText = p ++ ellipsisBytes) := by
  have cap : ∀ (v : List UInt8) (n : Int), 0 < n → ((truncateText v n).length : Int) ≤ n := by
    intro v n hn
    have := truncateText_length_le v n
    omega
  refine ⟨?_, ?_, ?_, ?_, ?_, ?_, ?_, ?_, ?_⟩
  · have := cap u.input 4000 (by omega)
    simp only [upsertToolStartRow]
    omega
  · have := cap u.output 4000 (by omega)
    simp only [completeToolRow]
    omega
  · have := cap u.errText 2000 (by omega)
    simp only [completeToolRow]
    omega
  · intro h
    simp only [upsertToolStartRow]
    exact truncateText_of_fits u.input 4000 (by exact_mod_cast h)
  · intro h
    simp only [upsertToolStartRow]
    exact ⟨u.input.take ((4000 : Int) - 3).toNat,
      truncateText_of_over u.input 4000 (by exact_mod_cast h) (by omega)⟩
  · intro h
    simp only [completeToolRow]
    exact truncateText_of_fits u.output 4000 (by exact_mod_cast h)
  · intro h
    simp only [completeToolRow]
    exact ⟨u.output.take ((4000 : Int) - 3).toNat,
      truncateText_of_over u.output 4000 (by exact_mod_cast h) (by omega)⟩
  · intro h
    simp only [completeToolRow]
    exact truncateText_of_fits u.errText 2000 (by exact_mod_cast h)
  · intro h
    simp only [completeToolRow]
    exact ⟨u.errText.take ((2000 : Int) - 3).toNat,
      truncateText_of_over u.errText 2000 (by exact_mod_cast h) (by omega)⟩

/-- Witness for `toolCall_field_caps`: a concrete update whose input stays
under the 4000-byte budget is stored unchanged. -/
theorem toolCall_field_caps_witness :
    (upsertToolStartRow "call-1" "run-1"
        { id := "p1", name := "web_search", status := "running",
          input := [123, 125], output := [], errText := [] } 0).inputJson
      = [123, 125] :=
  (toolCall_field_caps "call-1" "run-1"
      { id := "p1", name := "web_search", status := "running",
        input := [123, 125], output := [], errText := [] } 0
      { id := "call-1", runId := "run-1", toolCallId := "p1",
        name := "web_search", status := "running", inputJson := [],
        outputJson := [], errorText := [], startedAt := 0,
        finishedAt := none }).2.2.2.1 (by decide)

/-- The integer limits read by `config.Load` before clamping
(`internal/config/config.go`). -/
structure LoadedLimits where
  maxTurns : Int
  maxToolCalls : Int
  uiFlushBytes : Int
  maxHistory : Int
deriving DecidableEq, Repr

/-- Clamp section at the end of `config.Load`: out-of-range values are
reset to the package defaults (8, 8, 256, 30), not to the documented
minimums. -/
def applyLimitClamps (c : LoadedLimits) : LoadedLimits :=
  { maxTurns := if c.maxTurns < 1 then 8 else c.maxTurns,
    maxToolCalls := if c.maxToolCalls < 1 then 8 else c.maxToolCalls,
    uiFlushBytes := if c.uiFlushBytes < 64 then 256 else c.uiFlushBytes,
    maxHistory := if c.maxHistory < 4 then 30 else c.maxHistory }

/-- Claim C5 counterexample: a configured `UIFlushBytes` of 0 is clamped to
the default 256, not to the claimed minimum 64 (likewise `MaxHistory` 0
becomes 30, not 4, and `MaxTurns` 0 becomes 8, not 1). -/
theorem configClamp_counterexample :
    (applyLimitClamps
        { maxTurns := 0, maxToolCalls := 0, uiFlushBytes := 0, maxHistory := 0 }).uiFlushBytes = 256
    ∧ (applyLimitClamps
        { maxTurns := 0, maxToolCalls := 0, uiFlushBytes := 0, maxHistory := 0 }).uiFlushBytes ≠ 64
    ∧ (applyLimitClamps
        { maxTurns := 0, maxToolCalls := 0, uiFlushBytes := 0, maxHistory := 0 }).maxHistory = 30
    ∧ (applyLimitClamps
        { maxTurns := 0, maxToolCalls := 0, uiFlushBytes := 0, maxHistory := 0 }).maxTurns = 8 := by
  refine ⟨rfl, by decide, rfl, rfl⟩

/-- Claim C5 (amended): configuration values below the documented minimums
clamp to the package defaults — `UIFlushBytes` below 64 becomes 256,
`MaxHistory` below 4 becomes 30, and `MaxTurns` or `MaxToolCalls` below 1
become 8; in-range values are kept unchanged. -/
theorem configClamp_amended (c : LoadedLimits) :
    (c.uiFlushBytes < 64 → (applyLimitClamps c).uiFlushBytes = 256)
    ∧ (64 ≤ c.uiFlushBytes → (applyLimitClamps c).uiFlushBytes = c.uiFlushBytes)
    ∧ (c.maxHistory < 4 → (applyLimitClamps c).maxHistory = 30)
    ∧ (4 ≤ c.maxHistory → (applyLimitClamps c).maxHistory = c.maxHistory)
    ∧ (c.maxTurns < 1 → (applyLimitClamps c).maxTurns = 8)
    ∧ (1 ≤ c.maxTurns → (applyLimitClamps c).maxTurns = c.maxTurns)
    ∧ (c.maxToolCalls < 1 → (applyLimitClamps c).maxToolCalls = 8)
    ∧ (1 ≤ c.maxToolCalls → (applyLimitClamps c).maxToolCalls = c.maxToolCalls) := by
  simp only [applyLimitClamps]
  refine ⟨?_, ?_, ?_, ?_, ?_, ?_, ?_, ?_⟩ <;> intro h <;> simp <;> omega

/-- Witness for `configClamp_amended` at a concrete out-of-range
configuration. -/
theorem configClamp_amended_witness :
    (applyLimitClamps
        { maxTurns := 0, maxToolCalls := 0, uiFlushBytes := 63, maxHistory := 3 }).uiFlushBytes = 256 :=
  (configClamp_amended
      { maxTurns := 0, maxToolCalls := 0, uiFlushBytes := 63, maxHistory := 3 }).1 (by decide)

/-- An error value as seen through Go's `error` interface; `isCanceled`
models `errors.Is(err, context.Canceled)`. -/
structure GoError where
  isCanceled : Bool
  message : String
deriving DecidableEq, Repr

/-- The final stream data produced by the provider (`stream.Result()`). -/
structure StreamFinal where
  stopReason : String
  toolCallCount : Int
  turnCount : Int
deriving DecidableEq, Repr

/-- Outcome of the provider stream as the runner observes it after
`RunStream` opened successfully: `stream.Process` returned an error,
`stream.Err()` was non-nil, or the stream finished and `Result()` is
available. -/
inductive StreamOutcome where
  | processFailure (e : GoError)
  | tailFailure (e : GoError)
  | finished (final : StreamFinal)
deriving DecidableEq, Repr

/-- Model of `wrapStreamError` (`internal/ai`, part_003): a
`context.Canceled` error passes through unchanged; anything else is
wrapped with model and stage information (Go `%q` modelled as plain
quoting; an all-whitespace message is replaced). -/
def wrapStreamError (selectedModel providerModel stage : String) (e : GoError) : GoError :=
  if e.isCanceled then e
  else
    let m := trimSpace e.message
    let m2 := if m = "" then "provider returned an empty error" else m
    { isCanceled := false,
      message := "ai stream failed for model \"" ++ selectedModel ++ "\" (provider model \""
        ++ providerModel ++ "\") at " ++ stage ++ ": " ++ m2 }

/-- Tail of `Runner.Stream` (part_003, after `Process` returns): wrap any
process or stream error, and convert a final `stop_reason == "error"` into
an error result. -/
def runnerStreamEnd (model resolvedModel : String) (o : StreamOutcome) :
    Except GoError StreamFinal :=
  match o with
  | .processFailure e => .error (wrapStreamError model resolvedModel "process" e)
  | .tailFailure e => .error (wrapStreamError model resolvedModel "stream" e)
  | .finished final =>
      if final.stopReason = "error" then
        .error { isCanceled := false,
                 message := "ai stream failed for model \"" ++ model ++ "\" (provider model \""
                   ++ resolvedModel ++ "\"): stop_reason=error" }
      else .ok final

/-- Model of `Service.IsCancellation(err, ctx)`: the error is
`context.Canceled`, or the enclosing context was cancelled. -/
def isCancellation (e : GoError) (ctxCanceled : Bool) : Bool :=
  e.isCanceled || ctxCanceled

/-- Terminal status and error text the coordinator computes for a run. -/
structure RunTerminal where
  status : String
  errText : String
deriving DecidableEq, Repr

/-- Status computation at the end of stream processing in the run effect
of `ChatRoot` (`app/routes/index.go`): `completed` unless the stream
returned an error, in which case `cancelled` when the error is a
cancellation and `error` otherwise (only then is the error text kept). -/
def computeTerminal (streamOutcome : Except GoError StreamFinal) (ctxCanceled : Bool) :
    RunTerminal :=
  match streamOutcome with
  | .ok _ => { status := "completed", errText := "" }
  | .error e =>
      if isCancellation e ctxCanceled then { status := "cancelled", errText := "" }
      else { status := "error", errText := e.message }

/-- The provider stream surfaced a cancellation. -/
def surfacedCancellation (o : StreamOutcome) : Bool :=
  match o with
  | .processFailure e => e.isCanceled
  | .tailFailure e => e.isCanceled
  | .finished _ => false

/-- The provider stream ended in a failure (process or stream error). -/
def isStreamFailure (o : StreamOutcome) : Bool :=
  match o with
  | .finished _ => false
  | _ => true

/-- The provider stream finished but reported `stop_reason == "error"`. -/
def stoppedWithError (o : StreamOutcome) : Bool :=
  match o with
  | .finished final => final.stopReason == "error"
  | _ => false

/-- Claim C1: at end of stream processing the coordinator computes the
terminal status as `cancelled` when the caller's cancel signal tripped or
the provider stream surfaced a cancellation; otherwise `error` when the
stream failed or the provider reported `stop_reason == "error"`; otherwise
`completed`; and a `cancelled` run never carries error text.  Hypothesis
`hc` is the §4.3 transport contract: a cancelled context makes the stream
surface a failure. -/
theorem terminal_status_spec (model resolvedModel : String) (o : StreamOutcome)
    (ctxCanceled : Bool)
    (hc : ctxCanceled = true → isStreamFailure o = true) :
    (computeTerminal (runnerStreamEnd model resolvedModel o) ctxCanceled).status
      = (if ctxCanceled || surfacedCancellation o then "cancelled"
         else if isStreamFailure o || stoppedWithError o then "error"
         else "completed")
    ∧ ((computeTerminal (runnerStreamEnd model resolvedModel o) ctxCanceled).status = "cancelled"
        → (computeTerminal (runnerStreamEnd model resolvedModel o) ctxCanceled).errText = "") := by
  cases o with
  | processFailure e =>
      cases hec : e.isCanceled <;> cases hctx : ctxCanceled <;>
        simp [runnerStreamEnd, wrapStreamError, computeTerminal, isCancellation,
          surfacedCancellation, isStreamFailure, stoppedWithError, hec]
  | tailFailure e =>
      cases hec : e.isCanceled <;> cases hctx : ctxCanceled <;>
        simp [runnerStreamEnd, wrapStreamError, computeTerminal, isCancellation,
          surfacedCancellation, isStreamFailure, stoppedWithError, hec]
  | finished final =>
      cases hctx : ctxCanceled
      · by_cases hsr : final.stopReason = "error" <;>
          simp [runnerStreamEnd, computeTerminal, isCancellation, surfacedCancellation,
            isStreamFailure, stoppedWithError, hsr]
      · have := hc hctx
        simp [isStreamFailure] at this

/-- Witness for `terminal_status_spec`: a stream that fails with a
`context.Canceled` error yields status `cancelled`. -/
theorem terminal_status_spec_witness :
    (computeTerminal (runnerStreamEnd "oai-resp/gpt-5-mini" "oai-resp/gpt-5-mini"
        (StreamOutcome.processFailure { isCanceled := true, message := "" })) false).status
      = (if false || surfacedCancellation
            (StreamOutcome.processFailure { isCanceled := true, message := "" }) then "cancelled"
         else if isStreamFailure
              (StreamOutcome.processFailure { isCanceled := true, message := "" })
            || stoppedWithError
              (StreamOutcome.processFailure { isCanceled := true, message := "" }) then "error"
         else "completed") :=
  (terminal_status_spec "oai-resp/gpt-5-mini" "oai-resp/gpt-5-mini"
    (StreamOutcome.processFailure { isCanceled := true, message := "" }) false (by decide)).1

/-- Transient per-run buffers of the run effect in `ChatRoot`:
`assistantBuilder` (the flushed accumulator), `pendingDelta`, and the
sequence of contents written to the store through
`Service.UpdateAssistantPartial` / `Store.UpdateMessageContent`, in write
order. -/
structure RunBuffers where
  builder : String
  pending : String
  dbWrites : List String
deriving DecidableEq, Repr

/-- Initial buffers of a run: both strings empty, nothing written. -/
def rbInit : RunBuffers := { builder := "", pending := "", dbWrites := [] }

/-- Model of the `flushUI` closure.  `len(pendingDelta)` counts bytes;
`uiTimeDue` is the oracle for the clock test
`time.Since(lastUIFlush) >= uiFlushInterval`. -/
def flushUIStep (uiFlushBytes : Nat) (uiTimeDue force : Bool) (st : RunBuffers) : RunBuffers :=
  if st.pending = "" then st
  else if force = false ∧ st.pending.utf8ByteSize < uiFlushBytes ∧ uiTimeDue = false then st
  else { st with builder := st.builder ++ st.pending, pending := "" }

/-- Model of the `flushDB` closure; `dbTimeDue` is the oracle for
`time.Since(lastDBFlush) >= dbFlushInterval`.  A flush writes the full
current content `assistantBuilder + pendingDelta`. -/
def flushDBStep (dbTimeDue force : Bool) (st : RunBuffers) : RunBuffers :=
  if force = false ∧ dbTimeDue = false then st
  else { st with dbWrites := st.dbWrites ++ [st.builder ++ st.pending] }

/-- One provider stream event, with the time-threshold oracles attached to
text deltas. -/
inductive StreamEvent where
  | textDelta (delta : String) (uiTimeDue dbTimeDue : Bool)
  | toolStart
  | toolResult
  | thinking
deriving DecidableEq, Repr

/-- Stream-callback handling in the run effect: a text delta is appended
to the pending buffer and both sinks are offered a non-forced flush; tool
events force a UI flush only; thinking events leave the buffers alone. -/
def handleEvent (uiFlushBytes : Nat) (st : RunBuffers) (e : StreamEvent) : RunBuffers :=
  match e with
  | .textDelta delta uiTimeDue dbTimeDue =>
      flushDBStep dbTimeDue false
        (flushUIStep uiFlushBytes uiTimeDue false { st with pending := st.pending ++ delta })
  | .toolStart => flushUIStep uiFlushBytes false true st
  | .toolResult => flushUIStep uiFlushBytes false true st
  | .thinking => st

/-- A whole streaming run: process all events, then the forced
`flushUI(true)` and `flushDB(true)` at termination, and finally the
`CompleteAssistant` write of `finalContent` (also an
`UpdateMessageContent` of the same assistant message). -/
def processRun (uiFlushBytes : Nat) (events : List StreamEvent) : RunBuffers :=
  let st := events.foldl (handleEvent uiFlushBytes) rbInit
  let st1 := flushUIStep uiFlushBytes false true st
  let st2 := flushDBStep false true st1
  { st2 with dbWrites := st2.dbWrites ++ [st2.builder ++ st2.pending] }

/-- String `b` extends string `a`: `a` is a prefix of `b`. -/
def ExtendsTo (a b : String) : Prop := ∃ t, b = a ++ t

theorem extendsTo_refl (a : String) : ExtendsTo a a :=
  ⟨"", (String.append_empty a).symm⟩

theorem extendsTo_append {a b : String} (t : String) (h : ExtendsTo a b) :
    ExtendsTo a (b ++ t) := by
  obtain ⟨u, rfl⟩ := h
  exact ⟨u ++ t, String.append_assoc a u t⟩

/-- The authoritative assistant content held by the coordinator:
accumulator plus pending delta. -/
def observedContent (st : RunBuffers) : String := st.builder ++ st.pending

/-- Invariant carried through a run: the writes so far form an
extension chain, and the current content extends every write. -/
def BufferInv (st : RunBuffers) : Prop :=
  List.Pairwise ExtendsTo st.dbWrites ∧ ∀ w ∈ st.dbWrites, ExtendsTo w (observedContent st)

theorem flushUIStep_observed (k : Nat) (u f : Bool) (st : RunBuffers) :
    observedContent (flushUIStep k u f st) = observedContent st
    ∧ (flushUIStep k u f st).dbWrites = st.dbWrites := by
  unfold flushUIStep observedContent
  split_ifs <;> simp [String.append_empty, String.append_assoc]

theorem bufferInv_flushUI (k : Nat) (u f : Bool) {st : RunBuffers} (h : BufferInv st) :
    BufferInv (flushUIStep k u f st) := by
  obtain ⟨hobs, hdb⟩ := flushUIStep_observed k u f st
  exact ⟨by rw [hdb]; exact h.1, by rw [hdb, hobs]; exact h.2⟩

theorem bufferInv_appendWrite {st : RunBuffers} (h : BufferInv st) :
    BufferInv { st with dbWrites := st.dbWrites ++ [st.builder ++ st.pending] } := by
  constructor
  · rw [List.pairwise_append]
    refine ⟨h.1, List.pairwise_singleton _ _, ?_⟩
    intro a ha b hb
    rw [List.mem_singleton] at hb
    subst hb
    exact h.2 a ha
  · intro w hw
    rw [List.mem_append] at hw
    rcases hw with hw | hw
    · exact h.2 w hw
    · rw [List.mem_singleton] at hw
      subst hw
      exact extendsTo_refl _

theorem bufferInv_flushDB (d f : Bool) {st : RunBuffers} (h : BufferInv st) :
    BufferInv (flushDBStep d f st) := by
  unfold flushDBStep
  split_ifs
  · exact h
  · exact bufferInv_appendWrite h

theorem bufferInv_pendingAppend (delta : String) {st : RunBuffers} (h : BufferInv st) :
    BufferInv { st with pending := st.pending ++ delta } := by
  refine ⟨h.1, ?_⟩
  intro w hw
  have : observedContent { st with pending := st.pending ++ delta }
      = observedContent st ++ delta := by
    simp [observedContent, String.append_assoc]
  rw [this]
  exact extendsTo_append delta (h.2 w hw)

theorem bufferInv_handleEvent (k : Nat) (e : StreamEvent) {st : RunBuffers}
    (h : BufferInv st) : BufferInv (handleEvent k st e) := by
  cases e with
  | textDelta delta u d =>
      exact bufferInv_flushDB d false
        (bufferInv_flushUI k u false (bufferInv_pendingAppend delta h))
  | toolStart => exact bufferInv_flushUI k false true h
  | toolResult => exact bufferInv_flushUI k false true h
  | thinking => exact h

theorem bufferInv_foldl (k : Nat) (events : List StreamEvent) :
    ∀ st : RunBuffers, BufferInv st → BufferInv (events.foldl (handleEvent k) st) := by
  induction events with
  | nil => intro st h; exact h
  | cons e rest ih =>
      intro st h
      exact ih _ (bufferInv_handleEvent k e h)

/-- Claim C2: over a whole streaming run, every store write of the
assistant content extends every previously written content, so the
persisted assistant content at any instant is a prefix of the content at
any later instant of the same run. -/
theorem db_content_monotone (uiFlushBytes : Nat) (events : List StreamEvent) :
    List.Pairwise ExtendsTo (processRun uiFlushBytes events).dbWrites := by
  have h0 : BufferInv rbInit := ⟨List.Pairwise.nil, by intro w hw; cases hw⟩
  have h1 := bufferInv_foldl uiFlushBytes events rbInit h0
  have h2 := bufferInv_flushUI uiFlushBytes false true h1
  have h3 := bufferInv_flushDB false true h2
  have h4 := bufferInv_appendWrite h3
  exact h4.1

/-- A row of the `messages` table as `Service.BuildHistory` consumes it.
`Store.ListMessages` delivers rows ordered by `(created_at, id)`, so list
order is chronological order. -/
structure DbMessage where
  role : String
  content : String
deriving DecidableEq, Repr

/-- A provider history message (`ai.Message`). -/
structure AiMessage where
  role : String
  content : String
deriving DecidableEq, Repr

/-- Row filter of `Service.BuildHistory`: skip rows that are neither user
nor assistant, and skip whitespace-only assistant rows. -/
def keepForHistory (m : DbMessage) : Bool :=
  if m.role ≠ "user" ∧ m.role ≠ "assistant" then false
  else if m.role = "assistant" ∧ trimSpace m.content = "" then false
  else true

/-- The appended (non-system) part of the history built by
`Service.BuildHistory`. -/
def historyCore (rows : List DbMessage) : List AiMessage :=
  (rows.filter keepForHistory).map (fun r => { role := r.role, content := r.content })

/-- The full emitted history before the window cut: system prompt first,
then the filtered rows. -/
def emittedHistory (systemPrompt : String) (rows : List DbMessage) : List AiMessage :=
  { role := "system", content := systemPrompt } :: historyCore rows

/-- Model of `Service.BuildHistory`: emit the system prompt and the
filtered rows, and when the result exceeds `H+1` entries keep
`history[0]` followed by `history[len-H:]`. -/
def BuildHistory (maxHistory : Nat) (systemPrompt : String) (rows : List DbMessage) :
    List AiMessage :=
  let history := emittedHistory systemPrompt rows
  if history.length ≤ maxHistory + 1 then history
  else { role := "system", content := systemPrompt } :: history.drop (history.length - maxHistory)

theorem keepForHistory_eq_true {m : DbMessage} :
    keepForHistory m = true ↔
      (m.role = "user" ∨ m.role = "assistant")
      ∧ (m.role = "assistant" → trimSpace m.content ≠ "") := by
  unfold keepForHistory
  split_ifs with h1 h2 <;> simp <;> tauto

/-- Closed form of `BuildHistory`: both branches of the window cut keep
the system head followed by the last `min H (length)` filtered entries. -/
theorem buildHistory_closed (H : Nat) (p : String) (rows : List DbMessage) :
    BuildHistory H p rows
      = { role := "system", content := p }
          :: (historyCore rows).drop ((historyCore rows).length - H) := by
  unfold BuildHistory emittedHistory
  simp only [List.length_cons]
  split_ifs with h
  · have h0 : (historyCore rows).length - H = 0 := by omega
    rw [h0, List.drop_zero]
  · have h2 : (historyCore rows).length + 1 - H = ((historyCore rows).length - H) + 1 := by
      omega
    rw [h2, List.drop_succ_cons]

/-- Claim C3: `BuildHistory` returns the configured system message first,
followed by only user/assistant rows in chronological order with
whitespace-only assistant rows removed; an emitted list of at most `H+1`
entries is returned unchanged, and a longer one is cut to exactly `H+1`
entries — the system head followed by the last `H` non-system entries. -/
theorem buildHistory_spec (H : Nat) (p : String) (rows : List DbMessage) :
    (BuildHistory H p rows).head? = some { role := "system", content := p }
    ∧ List.Sublist (BuildHistory H p rows).tail
        (rows.map (fun r => { role := r.role, content := r.content }))
    ∧ (∀ m ∈ (BuildHistory H p rows).tail,
        (m.role = "user" ∨ m.role = "assistant")
        ∧ (m.role = "assistant" → trimSpace m.content ≠ ""))
    ∧ ((emittedHistory p rows).length ≤ H + 1 →
        BuildHistory H p rows = emittedHistory p rows)
    ∧ (H + 1 < (emittedHistory p rows).length →
        (BuildHistory H p rows).length = H + 1
        ∧ BuildHistory H p rows
            = { role := "system", content := p }
                :: (historyCore rows).drop ((historyCore rows).length - H)) := by
  have hc := buildHistory_closed H p rows
  refine ⟨?_, ?_, ?_, ?_, ?_⟩
  · rw [hc]; rfl
  · rw [hc]
    simp only [List.tail_cons]
    refine List.Sublist.trans (List.drop_sublist _ _) ?_
    exact List.Sublist.map _ (List.filter_sublist rows)
  · rw [hc]
    simp only [List.tail_cons]
    intro m hm
    have hm2 : m ∈ historyCore rows := List.mem_of_mem_drop hm
    unfold historyCore at hm2
    rw [List.mem_map] at hm2
    obtain ⟨r, hr, rfl⟩ := hm2
    rw [List.mem_filter] at hr
    exact keepForHistory_eq_true.mp hr.2
  · intro h
    unfold BuildHistory
    rw [if_pos h]
  · intro h
    unfold emittedHistory at h
    simp only [List.length_cons] at h
    constructor
    · rw [hc]
      simp only [List.length_cons, List.length_drop]
      omega
    · exact hc

/-- Witness for `buildHistory_spec`: with `H = 1` and three stored user
messages the emitted list has four entries, so the window keeps exactly
the system head and the single most recent message. -/
theorem buildHistory_spec_witness :
    (BuildHistory 1 "prompt"
        [{ role := "user", content := "a" }, { role := "user", content := "b" },
          { role := "user", content := "c" }]).length = 1 + 1
    ∧ BuildHistory 1 "prompt"
        [{ role := "user", content := "a" }, { role := "user", content := "b" },
          { role := "user", content := "c" }]
      = { role := "system", content := "prompt" }
          :: (historyCore
                [{ role := "user", content := "a" }, { role := "user", content := "b" },
                  { role := "user", content := "c" }]).drop
            ((historyCore
                [{ role := "user", content := "a" }, { role := "user", content := "b" },
                  { role := "user", content := "c" }]).length - 1) :=
  (buildHistory_spec 1 "prompt"
      [{ role := "user", content := "a" }, { role := "user", content := "b" },
        { role := "user", content := "c" }]).2.2.2.2 (by decide)

/-- A message of the provider request (`vai.Message`, content reduced to
its single text block). -/
structure RequestMessage where
  role : String
  content : String
deriving DecidableEq, Repr

/-- The provider request shape produced by `Runner.Stream`: the merged
system prompt (the `System` field, empty when unset) and the normalized
message list. -/
structure ProviderRequest where
  system : String
  messages : List RequestMessage
deriving DecidableEq, Repr

/-- Model of Go `strings.Join`. -/
def joinParts (sep : String) : List String → String
  | [] => ""
  | [part] => part
  | part :: rest => part ++ sep ++ joinParts sep rest

/-- Loop body of `normalizeMessagesForRequest` (part_003): system messages
are trimmed and collected (whitespace-only ones skipped), everything else
is forwarded as a request message. -/
def normStep (acc : List RequestMessage × List String) (m : AiMessage) :
    List RequestMessage × List String :=
  if m.role = "system" then
    if trimSpace m.content = "" then acc
    else (acc.1, acc.2 ++ [trimSpace m.content])
  else (acc.1 ++ [{ role := m.role, content := m.content }], acc.2)

/-- Model of `normalizeMessagesForRequest`: split the history into request
messages and the merged system prompt joined with `"\n\n"`. -/
def normalizeMessagesForRequest (messages : List AiMessage) :
    List RequestMessage × String :=
  let r := messages.foldl normStep ([], [])
  (r.1, joinParts "\n\n" r.2)

/-- The request `Runner.Stream` constructs for a chat: history from
`Service.BuildHistory`, then `normalizeMessagesForRequest`. -/
def providerRequestFor (maxHistory : Nat) (systemPrompt : String) (rows : List DbMessage) :
    ProviderRequest :=
  let r := normalizeMessagesForRequest (BuildHistory maxHistory systemPrompt rows)
  { system := r.2, messages := r.1 }

theorem foldl_normStep_of_no_system (l : List AiMessage)
    (hl : ∀ m ∈ l, m.role ≠ "system") :
    ∀ acc, l.foldl normStep acc
      = (acc.1 ++ l.map (fun m => { role := m.role, content := m.content }), acc.2) := by
  induction l with
  | nil => intro acc; simp
  | cons m rest ih =>
      intro acc
      have hm : ¬m.role = "system" := hl m (by simp)
      have hrest : ∀ x ∈ rest, x.role ≠ "system" := fun x hx => hl x (by simp [hx])
      simp only [List.foldl_cons, normStep, if_neg hm]
      rw [ih hrest]
      simp

/-- Claim C6: the provider request for a chat carries one merged system
prompt — the history's system messages (exactly the configured prompt
here), trimmed and joined with `"\n\n"` — followed by the last `H`
non-empty user/assistant messages in chronological order.  `hp` and `hpe`
state that the configured prompt is non-empty without surrounding
whitespace; `huser` is the app invariant that stored user messages are
never whitespace-only (`onSend` trims the input and refuses empty text). -/
theorem providerRequest_spec (H : Nat) (p : String) (rows : List DbMessage)
    (hp : trimSpace p = p) (hpe : p ≠ "")
    (huser : ∀ r ∈ rows, r.role = "user" → trimSpace r.content ≠ "") :
    (providerRequestFor H p rows).system = p
    ∧ (providerRequestFor H p rows).messages
        = ((rows.filter (fun r =>
              (r.role == "user" || r.role == "assistant")
                && !(trimSpace r.content == ""))).drop
            ((rows.filter (fun r =>
              (r.role == "user" || r.role == "assistant")
                && !(trimSpace r.content == ""))).length - H)).map
          (fun r => { role := r.role, content := r.content }) := by
  have hfeq : rows.filter (fun r =>
        (r.role == "user" || r.role == "assistant") && !(trimSpace r.content == ""))
      = rows.filter keepForHistory := by
    refine List.filter_congr ?_
    intro r hr
    by_cases hu : r.role = "user"
    · have := huser r hr hu
      simp [keepForHistory, hu, this]
    · by_cases ha : r.role = "assistant"
      · by_cases ht : trimSpace r.content = "" <;> simp [keepForHistory, hu, ha, ht]
      · simp [keepForHistory, hu, ha]
  have hnosys : ∀ m ∈ (historyCore rows).drop ((historyCore rows).length - H),
      m.role ≠ "system" := by
    intro m hm
    have hm2 : m ∈ historyCore rows := List.mem_of_mem_drop hm
    unfold historyCore at hm2
    rw [List.mem_map] at hm2
    obtain ⟨r, hr, rfl⟩ := hm2
    rw [List.mem_filter] at hr
    rcases (keepForHistory_eq_true.mp hr.2).1 with h | h <;> simp [h]
  have hreq : providerRequestFor H p rows
      = { system := p,
          messages := ((historyCore rows).drop ((historyCore rows).length - H)).map
            (fun m => { role := m.role, content := m.content }) } := by
    unfold providerRequestFor normalizeMessagesForRequest
    rw [buildHistory_closed]
    simp only [List.foldl_cons]
    have hstep : normStep ([], []) { role := "system", content := p }
        = ([], [p]) := by
      simp [normStep, hp, hpe]
    rw [hstep, foldl_normStep_of_no_system _ hnosys]
    simp [joinParts]
  rw [hreq]
  refine ⟨rfl, ?_⟩
  rw [hfeq]
  unfold historyCore
  rw [← List.map_drop, List.map_map, List.length_map]
  rfl

/-- Witness for `providerRequest_spec` at a concrete chat: one user
message and one whitespace-only assistant message; the request keeps the
prompt as system and only the user message. -/
theorem providerRequest_spec_witness :
    (providerRequestFor 30 "You are helpful."
        [{ role := "user", content := "hi" }, { role := "assistant", content := "  " }]).system
      = "You are helpful." :=
  (providerRequest_spec 30 "You are helpful."
      [{ role := "user", content := "hi" }, { role := "assistant", content := "  " }]
      (by decide) (by decide) (by decide)).1

/-- Association-list view of a table keyed by a text primary key: does a
row with key `k` exist (SQL `WHERE id = k` hit)? -/
def tableHas {α : Type} (table : List (String × α)) (k : String) : Bool :=
  table.any (fun e => e.1 == k)

/-- SQL `UPDATE ... WHERE id = k` on the association-list view. -/
def tableUpdate {α : Type} (table : List (String × α)) (k : String) (f : α → α) :
    List (String × α) :=
  table.map (fun e => if e.1 == k then (e.1, f e.2) else e)

/-- SQL `SELECT ... WHERE id = k` on the association-list view. -/
def tableLookup {α : Type} (table : List (String × α)) (k : String) : Option α :=
  (table.find? (fun e => e.1 == k)).map (fun e => e.2)

theorem tableLookup_update {α : Type} (table : List (String × α)) (k : String) (f : α → α) :
    tableLookup (tableUpdate table k f) k = (tableLookup table k).map f := by
  induction table with
  | nil => rfl
  | cons e rest ih =>
      by_cases he : e.1 = k
      · simp [tableUpdate, tableLookup, List.find?_cons, he]
      · have h1 : tableUpdate (e :: rest) k f = e :: tableUpdate rest k f := by
          simp [tableUpdate, he]
        have h2 : tableLookup (e :: rest) k = tableLookup rest k := by
          simp [tableLookup, List.find?_cons, he]
        have h3 : tableLookup (e :: tableUpdate rest k f) k
            = tableLookup (tableUpdate rest k f) k := by
          simp [tableLookup, List.find?_cons, he]
        rw [h1, h3, h2, ih]

theorem tableHas_update {α : Type} (table : List (String × α)) (k : String) (f : α → α) :
    tableHas (tableUpdate table k f) k = tableHas table k := by
  induction table with
  | nil => rfl
  | cons e rest ih =>
      by_cases he : e.1 = k
      · simp [tableUpdate, tableHas, List.any_cons, he]
      · have h1 : tableUpdate (e :: rest) k f = e :: tableUpdate rest k f := by
          simp [tableUpdate, he]
        rw [h1]
        simp only [tableHas, List.any_cons] at ih ⊢
        rw [ih]

theorem tableUpdate_twice {α : Type} (table : List (String × α)) (k : String) (f g : α → α) :
    tableUpdate (tableUpdate table k f) k g = tableUpdate table k (fun a => g (f a)) := by
  induction table with
  | nil => rfl
  | cons e rest ih =>
      by_cases he : e.1 = k
      · have h1 : tableUpdate (e :: rest) k f = (e.1, f e.2) :: tableUpdate rest k f := by
          simp [tableUpdate, he]
        have h2 : tableUpdate ((e.1, f e.2) :: tableUpdate rest k f) k g
            = (e.1, g (f e.2)) :: tableUpdate (tableUpdate rest k f) k g := by
          simp [tableUpdate, he]
        have h3 : tableUpdate (e :: rest) k (fun a => g (f a))
            = (e.1, g (f e.2)) :: tableUpdate rest k (fun a => g (f a)) := by
          simp [tableUpdate, he]
        rw [h1, h2, ih, h3]
      · have h1 : tableUpdate (e :: rest) k f = e :: tableUpdate rest k f := by
          simp [tableUpdate, he]
        have h2 : tableUpdate (e :: tableUpdate rest k f) k g
            = e :: tableUpdate (tableUpdate rest k f) k g := by
          simp [tableUpdate, he]
        have h3 : tableUpdate (e :: rest) k (fun a => g (f a))
            = e :: tableUpdate rest k (fun a => g (f a)) := by
          simp [tableUpdate, he]
        rw [h1, h2, ih, h3]

theorem tableUpdate_of_has_false {α : Type} (table : List (String × α)) (k : String)
    (f : α → α) : tableHas table k = false → tableUpdate table k f = table := by
  induction table with
  | nil => intro _; rfl
  | cons e rest ih =>
      intro h
      have h2 : (e.1 == k) = false ∧ tableHas rest k = false := by
        simpa [tableHas, List.any_cons, Bool.or_eq_false_iff] using h
      have he : ¬e.1 = k := by simpa using h2.1
      have h1 : tableUpdate (e :: rest) k f = e :: tableUpdate rest k f := by
        simp [tableUpdate, he]
      rw [h1, ih h2.2]

theorem tableHas_of_lookup_some {α : Type} {table : List (String × α)} {k : String}
    {v : α} : tableLookup table k = some v → tableHas table k = true := by
  induction table with
  | nil => intro h; simp [tableLookup] at h
  | cons e rest ih =>
      intro h
      by_cases he : e.1 = k
      · simp [tableHas, List.any_cons, he]
      · have h2 : tableLookup rest k = some v := by
          simpa [tableLookup, List.find?_cons, he] using h
        have h3 := ih h2
        simp only [tableHas, List.any_cons] at h3 ⊢
        rw [h3]
        simp

theorem tableLookup_of_has {α : Type} {table : List (String × α)} {k : String} :
    tableHas table k = true → ∃ v, tableLookup table k = some v := by
  induction table with
  | nil => intro h; simp [tableHas] at h
  | cons e rest ih =>
      intro h
      by_cases he : e.1 = k
      · exact ⟨e.2, by simp [tableLookup, List.find?_cons, he]⟩
      · have h2 : tableHas rest k = true := by
          simpa [tableHas, List.any_cons, he] using h
        obtain ⟨v, hv⟩ := ih h2
        exact ⟨v, by simpa [tableLookup, List.find?_cons, he] using hv⟩

/-- A row of the `runs` table (`db.Run`).  `usage` is an opaque serialized
blob; timestamps are opaque instants; nullable columns are `Option`s. -/
structure Run where
  chatId : String
  userMessageId : String
  assistantMessageId : String
  model : String
  status : String
  stopReason : Option String
  errorText : Option String
  toolCallCount : Int
  turnCount : Int
  usageJson : Option String
  startedAt : Int
  finishedAt : Option Int
deriving DecidableEq, Repr

/-- Column values supplied by `Store.UpsertRunStart` /
`db.UpsertRunStartTx`. -/
structure RunStart where
  id : String
  chatId : String
  userMessageId : String
  assistantMessageId : String
  model : String
  status : String
  startedAt : Int
  toolCallCount : Int
  turnCount : Int
deriving DecidableEq, Repr

/-- Row created by the INSERT branch of the upsert: columns absent from
the column list start NULL. -/
def newRunRow (r : RunStart) : Run :=
  { chatId := r.chatId, userMessageId := r.userMessageId,
    assistantMessageId := r.assistantMessageId, model := r.model,
    status := r.status, stopReason := none, errorText := none,
    toolCallCount := r.toolCallCount, turnCount := r.turnCount,
    usageJson := none, startedAt := r.startedAt, finishedAt := none }

/-- Row update of the `ON CONFLICT(id) DO UPDATE SET` branch: only status,
model, chat/message references and started_at are overwritten. -/
def applyRunStartConflict (old : Run) (r : RunStart) : Run :=
  { old with
    status := r.status,
    model := r.model,
    chatId := r.chatId,
    userMessageId := r.userMessageId,
    assistantMessageId := r.assistantMessageId,
    startedAt := r.startedAt }

/-- Model of `Store.UpsertRunStart` (identical SQL in
`db.UpsertRunStartTx`): INSERT, or on a conflicting `id` overwrite the
mutable start columns. -/
def UpsertRunStart (table : List (String × Run)) (r : RunStart) : List (String × Run) :=
  if tableHas table r.id then
    tableUpdate table r.id (fun old => applyRunStartConflict old r)
  else table ++ [(r.id, newRunRow r)]

/-- Claim C7: `UpsertRunStart` is idempotent on the run id — calling it
twice with identical inputs leaves the same table as calling it once —
and on conflict it overwrites exactly the mutable start fields (status,
model, chat/message references, started_at) while preserving stop reason,
error text, counters, usage and finish time. -/
theorem upsertRunStart_idempotent (table : List (String × Run)) (r : RunStart) :
    UpsertRunStart (UpsertRunStart table r) r = UpsertRunStart table r
    ∧ (∀ old, tableLookup table r.id = some old →
        ∃ row, tableLookup (UpsertRunStart table r) r.id = some row
          ∧ row.status = r.status ∧ row.model = r.model ∧ row.chatId = r.chatId
          ∧ row.userMessageId = r.userMessageId
          ∧ row.assistantMessageId = r.assistantMessageId
          ∧ row.startedAt = r.startedAt
          ∧ row.stopReason = old.stopReason ∧ row.errorText = old.errorText
          ∧ row.toolCallCount = old.toolCallCount ∧ row.turnCount = old.turnCount
          ∧ row.usageJson = old.usageJson ∧ row.finishedAt = old.finishedAt) := by
  constructor
  · by_cases h : tableHas table r.id = true
    · have e1 : UpsertRunStart table r
          = tableUpdate table r.id (fun old => applyRunStartConflict old r) := by
        unfold UpsertRunStart
        rw [if_pos h]
      rw [e1]
      have h2 : tableHas (tableUpdate table r.id
          (fun old => applyRunStartConflict old r)) r.id = true := by
        rw [tableHas_update]
        exact h
      unfold UpsertRunStart
      rw [if_pos h2, tableUpdate_twice]
      have hfix : (fun a => applyRunStartConflict (applyRunStartConflict a r) r)
          = (fun old => applyRunStartConflict old r) := funext (fun a => rfl)
      rw [hfix]
    · have hf : tableHas table r.id = false := by
        cases hx : tableHas table r.id
        · rfl
        · exact absurd hx h
      have e1 : UpsertRunStart table r = table ++ [(r.id, newRunRow r)] := by
        unfold UpsertRunStart
        rw [if_neg h]
      rw [e1]
      have hh : tableHas (table ++ [(r.id, newRunRow r)]) r.id = true := by
        simp [tableHas, List.any_append]
      unfold UpsertRunStart
      rw [if_pos hh]
      have hsplit : tableUpdate (table ++ [(r.id, newRunRow r)]) r.id
            (fun old => applyRunStartConflict old r)
          = tableUpdate table r.id (fun old => applyRunStartConflict old r)
            ++ [(r.id, applyRunStartConflict (newRunRow r) r)] := by
        simp [tableUpdate, List.map_append]
      rw [hsplit, tableUpdate_of_has_false table r.id _ hf]
      have hnew : applyRunStartConflict (newRunRow r) r = newRunRow r := rfl
      rw [hnew]
  · intro old hold
    have h := tableHas_of_lookup_some hold
    have e1 : UpsertRunStart table r
        = tableUpdate table r.id (fun old => applyRunStartConflict old r) := by
      unfold UpsertRunStart
      rw [if_pos h]
    rw [e1]
    refine ⟨applyRunStartConflict old r, ?_, ?_⟩
    · rw [tableLookup_update, hold]
      rfl
    · simp [applyRunStartConflict]

/-- Witness for `upsertRunStart_idempotent`: the conflict branch at a
concrete one-row table keeps the existing counters while overwriting the
start fields. -/
theorem upsertRunStart_idempotent_witness :
    ∃ row,
      tableLookup
          (UpsertRunStart
            [("run-1",
              { chatId := "chat-0", userMessageId := "u0", assistantMessageId := "a0",
                model := "m0", status := "completed", stopReason := some "end_turn",
                errorText := none, toolCallCount := 2, turnCount := 3,
                usageJson := some "usage", startedAt := 5, finishedAt := some 9 })]
            { id := "run-1", chatId := "chat-1", userMessageId := "u1",
              assistantMessageId := "a1", model := "m1", status := "running",
              startedAt := 10, toolCallCount := 0, turnCount := 0 }) "run-1"
        = some row
      ∧ row.status = "running" ∧ row.model = "m1" ∧ row.chatId = "chat-1"
      ∧ row.userMessageId = "u1" ∧ row.assistantMessageId = "a1"
      ∧ row.startedAt = 10
      ∧ row.stopReason = some "end_turn" ∧ row.errorText = none
      ∧ row.toolCallCount = 2 ∧ row.turnCount = 3
      ∧ row.usageJson = some "usage" ∧ row.finishedAt = some 9 :=
  (upsertRunStart_idempotent
      [("run-1",
        { chatId := "chat-0", userMessageId := "u0", assistantMessageId := "a0",
          model := "m0", status := "completed", stopReason := some "end_turn",
          errorText := none, toolCallCount := 2, turnCount := 3,
          usageJson := some "usage", startedAt := 5, finishedAt := some 9 })]
      { id := "run-1", chatId := "chat-1", userMessageId := "u1",
        assistantMessageId := "a1", model := "m1", status := "running",
        startedAt := 10, toolCallCount := 0, turnCount := 0 }).2
    { chatId := "chat-0", userMessageId := "u0", assistantMessageId := "a0",
      model := "m0", status := "completed", stopReason := some "end_turn",
      errorText := none, toolCallCount := 2, turnCount := 3,
      usageJson := some "usage", startedAt := 5, finishedAt := some 9 }
    (by decide)

/-- A row of the `chats` table (`db.Chat`), keyed externally by its id. -/
structure Chat where
  title : String
  model : String
  createdAt : Int
  updatedAt : Int
deriving DecidableEq, Repr

/-- Typed error kinds surfaced by the chat service façade. -/
inductive SvcError where
  | validation (msg : String)
  | notFound
deriving DecidableEq, Repr

/-- Model of `Store.RenameChat`: UPDATE of title and updated_at by id; zero
affected rows yield `ErrNotFound`. -/
def storeRenameChat (table : List (String × Chat)) (chatId title : String) (now : Int) :
    List (String × Chat) × Option SvcError :=
  if tableHas table chatId then
    (tableUpdate table chatId (fun c => { c with title := title, updatedAt := now }), none)
  else (table, some SvcError.notFound)

/-- Model of `Service.RenameChat`: trim id and title, reject blank id,
blank title and titles over 200 bytes, then delegate to the store. -/
def serviceRenameChat (table : List (String × Chat)) (chatId title : String) (now : Int) :
    List (String × Chat) × Option SvcError :=
  if trimSpace chatId = "" then (table, some (SvcError.validation "chat id is required"))
  else if trimSpace title = "" then
    (table, some (SvcError.validation "chat title cannot be empty"))
  else if 200 < (trimSpace title).utf8ByteSize then
    (table, some (SvcError.validation "chat title is too long"))
  else storeRenameChat table (trimSpace chatId) (trimSpace title) now

/-- Model of `Store.GetChat`. -/
def GetChat (table : List (String × Chat)) (chatId : String) : Option Chat :=
  tableLookup table chatId

/-- Claim C9: renaming with a whitespace-only or empty title yields a
validation error and leaves the store unchanged; a trimmed title over 200
bytes is rejected the same way; otherwise the trimmed title is stored, and
reloading the chat returns it. -/
theorem renameChat_spec (table : List (String × Chat)) (chatId title : String) (now : Int) :
    (trimSpace title = "" →
      (serviceRenameChat table chatId title now).1 = table
      ∧ ∃ m, (serviceRenameChat table chatId title now).2 = some (SvcError.validation m))
    ∧ (200 < (trimSpace title).utf8ByteSize →
      (serviceRenameChat table chatId title now).1 = table
      ∧ ∃ m, (serviceRenameChat table chatId title now).2 = some (SvcError.validation m))
    ∧ (trimSpace chatId ≠ "" → trimSpace title ≠ "" →
        (trimSpace title).utf8ByteSize ≤ 200 →
        tableHas table (trimSpace chatId) = true →
        (serviceRenameChat table chatId title now).2 = none
        ∧ ∃ c, GetChat (serviceRenameChat table chatId title now).1 (trimSpace chatId) = some c
            ∧ c.title = trimSpace title ∧ c.updatedAt = now) := by
  refine ⟨?_, ?_, ?_⟩
  · intro h
    unfold serviceRenameChat
    by_cases hid : trimSpace chatId = ""
    · rw [if_pos hid]
      exact ⟨rfl, "chat id is required", rfl⟩
    · rw [if_neg hid, if_pos h]
      exact ⟨rfl, "chat title cannot be empty", rfl⟩
  · intro h
    unfold serviceRenameChat
    by_cases hid : trimSpace chatId = ""
    · rw [if_pos hid]
      exact ⟨rfl, "chat id is required", rfl⟩
    · by_cases ht : trimSpace title = ""
      · rw [if_neg hid, if_pos ht]
        exact ⟨rfl, "chat title cannot be empty", rfl⟩
      · rw [if_neg hid, if_neg ht, if_pos h]
        exact ⟨rfl, "chat title is too long", rfl⟩
  · intro hid ht hlen hhas
    unfold serviceRenameChat
    rw [if_neg hid, if_neg ht, if_neg (by omega)]
    unfold storeRenameChat
    rw [if_pos hhas]
    obtain ⟨c, hc⟩ := tableLookup_of_has hhas
    refine ⟨rfl, { c with title := trimSpace title, updatedAt := now }, ?_, rfl, rfl⟩
    unfold GetChat
    rw [tableLookup_update, hc]
    rfl

/-- Witness for `renameChat_spec`: renaming a concrete chat with
`"  title  "` stores `"title"`. -/
theorem renameChat_spec_witness :
    (serviceRenameChat
        [("chat-1", { title := "Original", model := "m", createdAt := 0, updatedAt := 0 })]
        "chat-1" "  title  " 7).2 = none
    ∧ ∃ c, GetChat
          (serviceRenameChat
            [("chat-1", { title := "Original", model := "m", createdAt := 0, updatedAt := 0 })]
            "chat-1" "  title  " 7).1 (trimSpace "chat-1") = some c
        ∧ c.title = trimSpace "  title  " ∧ c.updatedAt = 7 :=
  (renameChat_spec
      [("chat-1", { title := "Original", model := "m", createdAt := 0, updatedAt := 0 })]
      "chat-1" "  title  " 7).2.2 (by decide) (by decide) (by decide) (by decide)

/-- One tool-call view embedded in a message view (`ToolCallView`). -/
structure ToolCallView where
  id : String
  name : String
  status : String
  input : String
  output : String
  errText : String
deriving DecidableEq, Repr

/-- One message view of the session (`MessageView`). -/
structure MessageView where
  id : String
  role : String
  content : String
  status : String
  toolCalls : List ToolCallView
  createdAt : Int
deriving DecidableEq, Repr

/-- The run request queued for the background effect (`PendingRun`). -/
structure PendingRun where
  runId : String
  chatId : String
  userMessageId : String
  assistantMessageId : String
  model : String
  userContent : String
deriving DecidableEq, Repr

/-- The signals of `ChatRoot` read or written by `onSend`. -/
structure SessionState where
  activeChatId : String
  activeRunId : String
  activeAssistantId : String
  inputText : String
  selectedModel : String
  errorText : String
  isThinking : Bool
  messages : List MessageView
  pendingRun : PendingRun
  runTrigger : Int
deriving DecidableEq, Repr

/-- Model of the `onSend` handler (`app/routes/index.go`): refuse when a
run is active, the chat id is empty, or the trimmed input is empty;
otherwise append the optimistic user/assistant pair, reset the composer,
record the pending run and bump the run trigger (which spawns the
background task).  `allowed` models `chatService.IsAllowedModel`; fresh
identifiers and the clock are parameters. -/
def onSend (st : SessionState) (allowed : String → Bool) (defaultModel : String)
    (freshRunId freshUserId freshAssistantId : String) (now : Int) : SessionState :=
  if st.activeRunId ≠ "" then st
  else if st.activeChatId = "" then st
  else if trimSpace st.inputText = "" then st
  else
    let content := trimSpace st.inputText
    let model := if allowed st.selectedModel then st.selectedModel else defaultModel
    let userMsg : MessageView :=
      { id := freshUserId, role := "user", content := content,
        status := "complete", toolCalls := [], createdAt := now }
    let assistantMsg : MessageView :=
      { id := freshAssistantId, role := "assistant", content := "",
        status := "streaming", toolCalls := [], createdAt := now }
    { st with
      messages := st.messages ++ [userMsg, assistantMsg],
      inputText := "",
      isThinking := true,
      errorText := "",
      selectedModel := model,
      activeRunId := freshRunId,
      activeAssistantId := freshAssistantId,
      pendingRun :=
        { runId := freshRunId, chatId := st.activeChatId,
          userMessageId := freshUserId, assistantMessageId := freshAssistantId,
          model := model, userContent := content },
      runTrigger := st.runTrigger + 1 }

/-- Run-status rows of one chat in the `runs` table, plus the session's
active-run marker: the state of the single-active-run mechanism. -/
structure CoordState where
  activeRunId : String
  runs : List (String × String)
deriving DecidableEq, Repr

/-- No active run, no rows. -/
def coordInit : CoordState := { activeRunId := "", runs := [] }

/-- Observable events of the coordinator for one chat.  `send` is the
`onSend` guard plus the transactional `running` run insert executed by the
spawned task; `taskFinish` is the task writing `CompleteRun` with a
terminal status, followed by the completion callback clearing a matching
active-run marker; `taskFail` is a task error before `CompleteRun` (only
the callback runs); `stop` is the `onStop` handler, which clears the
marker but leaves the store untouched. -/
inductive CoordEvent where
  | send (runId : String)
  | stop
  | taskFinish (runId : String) (status : String)
  | taskFail (runId : String)
deriving DecidableEq, Repr

/-- The `UpsertRunStartTx` write viewed on the status column. -/
def upsertRunningRun (runs : List (String × String)) (id : String) :
    List (String × String) :=
  if tableHas runs id then tableUpdate runs id (fun _ => "running")
  else runs ++ [(id, "running")]

/-- Transition relation of the single-active-run mechanism, read off the
handlers and the run effect of `ChatRoot`. -/
def coordStep (st : CoordState) (e : CoordEvent) : CoordState :=
  match e with
  | .send rid =>
      if st.activeRunId ≠ "" then st
      else { activeRunId := rid, runs := upsertRunningRun st.runs rid }
  | .stop =>
      if st.activeRunId = "" then st
      else { st with activeRunId := "" }
  | .taskFinish rid status =>
      { activeRunId := if st.activeRunId = rid then "" else st.activeRunId,
        runs := tableUpdate st.runs rid (fun _ => status) }
  | .taskFail rid =>
      { st with activeRunId := if st.activeRunId = rid then "" else st.activeRunId }

/-- Number of rows with status `running`. -/
def countRunning (runs : List (String × String)) : Nat :=
  (runs.filter (fun e => e.2 == "running")).length

/-- Claim C8 counterexample: after `send r1`, `stop`, `send r2` — all
legitimate operations of the code — the chat has two runs with status
`running` at once: `onStop` clears the active-run marker without touching
the store or finalizing the first run, so the subsequent send passes the
guard while the first run row is still `running`. -/
theorem singleActiveRun_counterexample :
    countRunning (([CoordEvent.send "r1", CoordEvent.stop, CoordEvent.send "r2"].foldl
        coordStep coordInit).runs) = 2 := by decide

/-- Events allowed by the amended claim: sends of fresh (non-empty) run
identifiers and successful finalizations with a terminal status; no
`stop`, no failed finalization. -/
def eventAllowed : CoordEvent → Bool
  | .send rid => !(rid == "")
  | .stop => false
  | .taskFinish _ status => !(status == "running")
  | .taskFail _ => false

/-- Invariant of the restricted system: every `running` row is the
session's active run, and row keys are unique. -/
def CoordInv (st : CoordState) : Prop :=
  (∀ x ∈ st.runs, x.2 = "running" → st.activeRunId ≠ "" ∧ x.1 = st.activeRunId)
  ∧ (st.runs.map Prod.fst).Nodup

theorem mem_tableUpdate {α : Type} {t : List (String × α)} {k : String} {f : α → α}
    {x : String × α} (hx : x ∈ tableUpdate t k f) :
    (∃ a ∈ t, a.1 = k ∧ x = (a.1, f a.2)) ∨ (x ∈ t ∧ ¬x.1 = k) := by
  unfold tableUpdate at hx
  rw [List.mem_map] at hx
  obtain ⟨a, ha, hax⟩ := hx
  by_cases he : a.1 = k
  · left
    exact ⟨a, ha, he, by rw [← hax]; simp [he]⟩
  · right
    have hxa : x = a := by rw [← hax]; simp [he]
    rw [hxa]
    exact ⟨ha, he⟩

theorem map_fst_tableUpdate {α : Type} (t : List (String × α)) (k : String) (f : α → α) :
    (tableUpdate t k f).map Prod.fst = t.map Prod.fst := by
  induction t with
  | nil => rfl
  | cons a rest ih =>
      by_cases he : a.1 = k
      · have h1 : tableUpdate (a :: rest) k f = (a.1, f a.2) :: tableUpdate rest k f := by
          simp [tableUpdate, he]
        rw [h1, List.map_cons, List.map_cons, ih]
      · have h1 : tableUpdate (a :: rest) k f = a :: tableUpdate rest k f := by
          simp [tableUpdate, he]
        rw [h1, List.map_cons, List.map_cons, ih]

theorem not_mem_fst_of_has_false {α : Type} {t : List (String × α)} {k : String}
    (h : tableHas t k = false) : k ∉ t.map Prod.fst := by
  intro hmem
  rw [List.mem_map] at hmem
  obtain ⟨a, ha, hak⟩ := hmem
  unfold tableHas at h
  rw [List.any_eq_false] at h
  have := h a ha
  simp [hak] at this

theorem coordInv_step (st : CoordState) (e : CoordEvent)
    (ha : eventAllowed e = true) (h : CoordInv st) : CoordInv (coordStep st e) := by
  cases e with
  | send rid =>
      have hrid : ¬rid = "" := by simpa [eventAllowed] using ha
      simp only [coordStep]
      by_cases hact : st.activeRunId ≠ ""
      · rw [if_pos hact]
        exact h
      · rw [if_neg hact]
        push_neg at hact
        constructor
        · intro x hx hrun
          dsimp only at hx ⊢
          unfold upsertRunningRun at hx
          split_ifs at hx with hhas
          · rcases mem_tableUpdate hx with ⟨a, ha2, hak, hxa⟩ | ⟨hxm, hxk⟩
            · exact ⟨hrid, by rw [hxa]; exact hak⟩
            · exact absurd hact (h.1 x hxm hrun).1
          · rw [List.mem_append] at hx
            rcases hx with hx | hx
            · exact absurd hact (h.1 x hx hrun).1
            · rw [List.mem_singleton] at hx
              rw [hx]
              exact ⟨hrid, rfl⟩
        · dsimp only
          unfold upsertRunningRun
          split_ifs with hhas
          · rw [map_fst_tableUpdate]
            exact h.2
          · have hf : tableHas st.runs rid = false := by
              cases hc : tableHas st.runs rid
              · rfl
              · exact absurd hc hhas
            rw [List.map_append]
            rw [List.nodup_append]
            refine ⟨h.2, List.nodup_singleton _, ?_⟩
            intro y hy hy2
            rw [List.map_singleton, List.mem_singleton] at hy2
            subst hy2
            exact not_mem_fst_of_has_false hf hy
  | stop => simp [eventAllowed] at ha
  | taskFinish rid status =>
      have hstat : ¬status = "running" := by simpa [eventAllowed] using ha
      simp only [coordStep]
      constructor
      · intro x hx hrun
        dsimp only at hx ⊢
        rcases mem_tableUpdate hx with ⟨a, ha2, hak, hxa⟩ | ⟨hxm, hxk⟩
        · rw [hxa] at hrun
          exact absurd hrun hstat
        · have hold := h.1 x hxm hrun
          have hne : ¬st.activeRunId = rid := by
            intro heq
            exact hxk (by rw [hold.2, heq])
          rw [if_neg hne]
          exact hold
      · dsimp only
        rw [map_fst_tableUpdate]
        exact h.2
  | taskFail rid => simp [eventAllowed] at ha

theorem coordInv_foldl (events : List CoordEvent) :
    ∀ st : CoordState, (∀ e ∈ events, eventAllowed e = true) → CoordInv st →
      CoordInv (events.foldl coordStep st) := by
  induction events with
  | nil =>
      intro st _ h
      exact h
  | cons e rest ih =>
      intro st ha h
      exact ih _ (fun x hx => ha x (by simp [hx]))
        (coordInv_step st e (ha e (by simp)) h)

theorem nodup_fst_const_length {β : Type} (l : List (String × β)) (a : String)
    (hnd : (l.map Prod.fst).Nodup) (hall : ∀ x ∈ l, x.1 = a) : l.length ≤ 1 := by
  match l with
  | [] => simp
  | [x] => simp
  | x :: y :: rest =>
      exfalso
      have hx : x.1 = a := hall x (by simp)
      have hy : y.1 = a := hall y (by simp)
      rw [List.map_cons, List.map_cons, List.nodup_cons] at hnd
      exact hnd.1 (by rw [hx, ← hy]; exact List.mem_cons_self _ _)

theorem countRunning_le_one_of_inv (st : CoordState) (h : CoordInv st) :
    countRunning st.runs ≤ 1 := by
  unfold countRunning
  refine nodup_fst_const_length _ st.activeRunId ?_ ?_
  · exact List.Nodup.sublist (List.Sublist.map _ (List.filter_sublist _)) h.2
  · intro x hx
    rw [List.mem_filter] at hx
    have hrun : x.2 = "running" := by simpa using hx.2
    exact (h.1 x hx.1 hrun).2

/-- Claim C8 (amended): when the session's active run identifier is
non-empty, `onSend` returns the session state unchanged (no optimistic
messages, no pending run, no trigger bump, hence no store writes); and in
executions consisting of sends of fresh run ids and successful terminal
finalizations — no `stop` and no failed finalization — at most one run of
the chat has status `running` at any time.  Unconditionally the
store-level invariant fails, because `onStop` clears the marker without
finalizing the run row (see the counterexample). -/
theorem singleActiveRun_amended :
    (∀ (st : SessionState) (allowed : String → Bool)
        (defaultModel freshRunId freshUserId freshAssistantId : String) (now : Int),
      st.activeRunId ≠ "" →
      onSend st allowed defaultModel freshRunId freshUserId freshAssistantId now = st)
    ∧ (∀ events : List CoordEvent, (∀ e ∈ events, eventAllowed e = true) →
        countRunning ((events.foldl coordStep coordInit).runs) ≤ 1) := by
  constructor
  · intro st allowed dm r u a now h
    unfold onSend
    rw [if_pos h]
  · intro events h
    refine countRunning_le_one_of_inv _ ?_
    refine coordInv_foldl events coordInit h ?_
    constructor
    · intro x hx
      cases hx
    · simp [coordInit]

/-- Witness for `singleActiveRun_amended`: with an active run, a concrete
`onSend` is the identity, and a send/finalize/send trace keeps at most one
running run. -/
theorem singleActiveRun_amended_witness :
    onSend
        { activeChatId := "c", activeRunId := "r0", activeAssistantId := "a0",
          inputText := "hello", selectedModel := "m", errorText := "",
          isThinking := true, messages := [],
          pendingRun :=
            { runId := "", chatId := "", userMessageId := "",
              assistantMessageId := "", model := "", userContent := "" },
          runTrigger := 1 }
        (fun _ => true) "dm" "r1" "u1" "a1" 0
      = { activeChatId := "c", activeRunId := "r0", activeAssistantId := "a0",
          inputText := "hello", selectedModel := "m", errorText := "",
          isThinking := true, messages := [],
          pendingRun :=
            { runId := "", chatId := "", userMessageId := "",
              assistantMessageId := "", model := "", userContent := "" },
          runTrigger := 1 }
    ∧ countRunning (([CoordEvent.send "r1", CoordEvent.taskFinish "r1" "completed",
          CoordEvent.send "r2"].foldl coordStep coordInit).runs) ≤ 1 :=
  ⟨singleActiveRun_amended.1
      { activeChatId := "c", activeRunId := "r0", activeAssistantId := "a0",
        inputText := "hello", selectedModel := "m", errorText := "",
        isThinking := true, messages := [],
        pendingRun :=
          { runId := "", chatId := "", userMessageId := "",
            assistantMessageId := "", model := "", userContent := "" },
        runTrigger := 1 }
      (fun _ => true) "dm" "r1" "u1" "a1" 0 (by decide),
    singleActiveRun_amended.2
      [CoordEvent.send "r1", CoordEvent.taskFinish "r1" "completed",
        CoordEvent.send "r2"] (by decide)⟩

end RhoneChat
